import Mathlib

/-!
Shallow embedding of the MemoHub memory ingestion and semantic retrieval engine.

Source files modelled:
- services/database_service.py : DatabaseService (vector_store dict, create_memory,
  semantic_search, get_memory_by_id, delete_memory, load_vectors_to_memory)
- routers/search.py : the delete route
- services/parser_service.py : ParserService chunking helpers

Modelling conventions:
- Python strings are modelled as `List Char`; Python dicts with insertion order as
  association lists `List (String × α)` (update keeps position, new keys append).
- Python floats are modelled by exact rationals `ℚ`; the float rounding error of the
  token estimator and of the cosine quotient is not modelled.
- Cosine similarity `dot/(|a|·|b|)` involves a square root, so similarity values are
  carried through the strictly monotone encoding `s ↦ sgn s * s ^ 2`, which is exact
  over `ℚ`: `sgn d * d^2 / (|a|^2 * |b|^2)`.  Since `x ↦ sgn x * x^2` is a strict
  order isomorphism of the reals, every comparison the code performs on similarities
  (the `>= threshold` filter, the sort order, and equality of scores) has the same
  truth value on the encoded values, provided the threshold is sent through the same
  encoding (`thKey`).  A zero-norm operand makes the quotient `0.0/0.0 = NaN` in
  numpy; this is modelled as `none`, and every ordered comparison against `none`
  is false, exactly as every comparison involving NaN is false.
- Fallible DynamoDB calls are modelled by explicit success flags; a raised Python
  exception is modelled as an `Except.error` carrying the state at the raise point.
-/

/-! ## Python string primitives (parser_service.py helpers) -/

/-- Whitespace in the sense of Python `str.split()` / `str.strip()`. -/
def pyIsSpace (c : Char) : Bool :=
  c = ' ' || c = '\n' || c = '\t' || c = '\r' || c = '\x0b' || c = '\x0c'

/-- CJK test `'一' <= c <= '鿿'` from `estimate_tokens`. -/
def isCJK (c : Char) : Bool :=
  0x4e00 ≤ c.toNat && c.toNat ≤ 0x9fff

/-- Helper for Python `str.split()` (no argument): maximal non-whitespace runs. -/
def wordsAux : List Char → List Char → List (List Char)
  | [], cur => if cur.isEmpty then [] else [cur.reverse]
  | c :: rest, cur =>
    if pyIsSpace c then
      if cur.isEmpty then wordsAux rest [] else cur.reverse :: wordsAux rest []
    else wordsAux rest (c :: cur)

/-- Python `text.split()`: list of whitespace-separated words, empties dropped. -/
def pyWords (s : List Char) : List (List Char) := wordsAux s []

/-- Python `str.strip()`: drop leading and trailing whitespace. -/
def pyStrip (s : List Char) : List Char :=
  ((s.dropWhile pyIsSpace).reverse.dropWhile pyIsSpace).reverse

/-- The non-whitespace character sequence of a string (used to state the
chunk-reconstruction property "modulo whitespace normalization"). -/
def nonWhite (s : List Char) : List Char := s.filter (fun c => !pyIsSpace c)

/-- Prepend a character to the first piece of a split result. -/
def consHead (c : Char) : List (List Char) → List (List Char)
  | [] => [[c]]
  | p :: ps => (c :: p) :: ps

/-- Python `text.split('\n\n')`: non-overlapping left-to-right split on the
two-character separator. -/
def splitPara : List Char → List (List Char)
  | [] => [[]]
  | [c] => [[c]]
  | c :: d :: rest =>
    if c = '\n' ∧ d = '\n' then [] :: splitPara rest
    else consHead c (splitPara (d :: rest))

/-- Python `paragraph.split('。')`. -/
def splitSent : List Char → List (List Char)
  | [] => [[]]
  | c :: rest => if c = '。' then [] :: splitSent rest else consHead c (splitSent rest)

/-- The paragraph separator `"\n\n"`. -/
def NL2 : List Char := ['\n', '\n']

/-! ## ParserService chunking (parser_service.py lines 36-105) -/

/-- `estimate_tokens`: `int(chinese_chars * 1.2 + english_words * 1.5)`, written as
the exact rational `(12*c + 15*w) / 10` truncated (the operands are nonnegative, so
`int` truncation is floor, which is `Nat` division). -/
def estimate_tokens (text : List Char) : ℕ :=
  (12 * (text.filter isCJK).length + 15 * (pyWords text).length) / 10

/-- One iteration of the sentence loop of `_split_long_paragraph`:
skip blank sentences, greedily extend the current chunk, else flush and restart.
The `'。'` terminator is re-appended to every accepted sentence, as in the source. -/
def sentStep (max_tokens : ℕ) (acc : List (List Char) × List Char) (sentence : List Char) :
    List (List Char) × List Char :=
  let chunks := acc.1
  let current := acc.2
  if (pyStrip sentence).isEmpty then (chunks, current)
  else if estimate_tokens (current ++ sentence) ≤ max_tokens then
    (chunks, current ++ sentence ++ ['。'])
  else if current.isEmpty then (chunks, sentence ++ ['。'])
  else (chunks ++ [pyStrip current], sentence ++ ['。'])

/-- `ParserService._split_long_paragraph`. -/
def split_long_paragraph (paragraph : List Char) (max_tokens : ℕ) : List (List Char) :=
  let r := (splitSent paragraph).foldl (sentStep max_tokens) ([], [])
  if r.2.isEmpty then r.1 else r.1 ++ [pyStrip r.2]

/-- One iteration of the paragraph loop of `_split_text_into_chunks`. -/
def chunkStep (max_tokens : ℕ) (acc : List (List Char) × List Char) (paragraph : List Char) :
    List (List Char) × List Char :=
  let chunks := acc.1
  let current := acc.2
  if max_tokens < estimate_tokens paragraph then
    ((if current.isEmpty then chunks else chunks ++ [pyStrip current]) ++
      split_long_paragraph paragraph max_tokens, [])
  else if estimate_tokens (current ++ paragraph) ≤ max_tokens then
    (chunks, current ++ paragraph ++ NL2)
  else if current.isEmpty then (chunks, paragraph ++ NL2)
  else (chunks ++ [pyStrip current], paragraph ++ NL2)

/-- `ParserService._split_text_into_chunks` (the caller passes `max_tokens = 6000`
by default). -/
def split_text_into_chunks (text : List Char) (max_tokens : ℕ) : List (List Char) :=
  if estimate_tokens text ≤ max_tokens then [text]
  else
    let r := (splitPara text).foldl (chunkStep max_tokens) ([], [])
    if r.2.isEmpty then r.1 else r.1 ++ [pyStrip r.2]

/-! ## DatabaseService data model (database_service.py) -/

/-- One value of the in-memory dict `self.vector_store`:
`{'embedding': np.array(...), 'memory_id': ..., 'user_id': item.get('user_id')}`.
`user_id` is an `Option` because `.get` can yield `None`. -/
structure VectorData where
  embedding : List ℚ
  memory_id : String
  user_id : Option String
deriving Repr, DecidableEq

/-- A metadata item of the DynamoDB memories table, restricted to the fields the
verified operations read (`metadata`, `updated_at`, `source`, `summary`, `tags` are
carried by the source dict but inspected by no claim). -/
structure MemoryItem where
  id : String
  user_id : Option String
  content : String
  memory_type : String
  created_at : String
deriving Repr, DecidableEq

/-- A row of the DynamoDB embeddings table, as written by `create_memory` and
scanned by `_load_vectors_to_memory`.  An embedding cell is `Option ℚ`: `none`
models a stored value on which `float(x)` raises. -/
structure EmbRow where
  id : String
  user_id : Option String
  embedding : List (Option ℚ)
  memory_id : String
  created_at : String
deriving Repr, DecidableEq

/-- The mutable state of a `DatabaseService` instance: the in-memory vector index,
the two durable DynamoDB tables, and the degraded-mode flag. -/
structure DBState where
  vector_store : List (String × VectorData)
  memories_table : List (String × MemoryItem)
  embeddings_table : List EmbRow
  dynamodb_disabled : Bool
deriving Repr, DecidableEq

/-- Keyed lookup (DynamoDB `get_item` / dict access). -/
def tblGet {α : Type} : List (String × α) → String → Option α
  | [], _ => none
  | (k, v) :: rest, key => if k = key then some v else tblGet rest key

/-- Keyed update (DynamoDB `put_item` / Python dict assignment): an existing key is
overwritten in place, a new key is appended. -/
def dictInsert {α : Type} : List (String × α) → String → α → List (String × α)
  | [], key, v => [(key, v)]
  | (k, w) :: rest, key, v =>
    if k = key then (k, v) :: rest else (k, w) :: dictInsert rest key v

/-- Keyed removal (DynamoDB `delete_item` / Python `del`); removing an absent key
is a no-op, as for DynamoDB `delete_item`. -/
def dictRemove {α : Type} : List (String × α) → String → List (String × α)
  | [], _ => []
  | (k, v) :: rest, key =>
    if k = key then dictRemove rest key else (k, v) :: dictRemove rest key

/-- `put_item` on the embeddings table (rows carry their own key). -/
def rowsPut : List EmbRow → EmbRow → List EmbRow
  | [], r => [r]
  | x :: rest, r => if x.id = r.id then r :: rest else x :: rowsPut rest r

/-- `delete_item` on the embeddings table. -/
def rowsRemove : List EmbRow → String → List EmbRow
  | [], _ => []
  | x :: rest, key => if x.id = key then rowsRemove rest key else x :: rowsRemove rest key

/-- Lookup in the embeddings table. -/
def rowsGet : List EmbRow → String → Option EmbRow
  | [], _ => none
  | x :: rest, key => if x.id = key then some x else rowsGet rest key

/-! ## Retrieval engine (database_service.py semantic_search, lines 247-305) -/

/-- `np.dot` on equal-length vectors (the engine only ever compares vectors of the
fixed embedding dimension; the `ValueError` numpy raises on mismatched shapes is
not modelled). -/
def dotP (a b : List ℚ) : ℚ := (List.zipWith (fun x y => x * y) a b).sum

/-- The threshold constant sent through the monotone encoding `x ↦ sgn x * x^2`
(see the file header): comparing an encoded similarity against `thKey t` is
equivalent to comparing the real similarity against `t`. -/
def thKey (t : ℚ) : ℚ := if 0 ≤ t then t ^ 2 else -(t ^ 2)

/-- The cosine similarity `np.dot(q,e) / (np.linalg.norm(q) * np.linalg.norm(e))`
of the source, carried in the encoding `sgn s * s^2 = sgn d * d^2 / (|q|^2 |e|^2)`.
When either operand has zero norm the source divides by `0.0` with a zero
numerator, producing NaN; this is the `none` branch. -/
def cosKey (q e : List ℚ) : Option ℚ :=
  let d := dotP q e
  let n := dotP q q * dotP e e
  if n = 0 then none
  else if 0 ≤ d then some (d ^ 2 / n) else some (-(d ^ 2 / n))

/-- One element of the `results` list built by `semantic_search` (the wall-clock
`search_time` field is not modelled). `similarity_key` is the similarity score in
the monotone encoding. -/
structure SearchResult where
  memory : MemoryItem
  similarity_key : ℚ
deriving Repr, DecidableEq

/-- `DatabaseService.get_memory_by_id`: a `get_item` on the memories table;
returns `None` in degraded mode and on a missing id. -/
def get_memory_by_id (st : DBState) (memory_id : String) : Option MemoryItem :=
  if st.dynamodb_disabled then none else tblGet st.memories_table memory_id

/-- The body of the `for memory_id, vector_data in self.vector_store.items()` loop
of `semantic_search`, for a single entry: skip foreign tenants (`continue`), score,
apply the inclusive `similarity >= threshold` test (false for NaN), hydrate the
metadata record, and keep it only when it exists and belongs to the caller. -/
def considerEntry (st : DBState) (q : List ℚ) (user_id : String) (t : ℚ)
    (p : String × VectorData) : Option SearchResult :=
  if p.2.user_id ≠ some user_id then none
  else
    match cosKey q p.2.embedding with
    | none => none
    | some k =>
      if thKey t ≤ k then
        match get_memory_by_id st p.1 with
        | some m => if m.user_id = some user_id then some ⟨m, k⟩ else none
        | none => none
      else none

/-- The `results` list of `semantic_search` before sorting and truncation, in
vector-store iteration order. -/
def searchCandidates (st : DBState) (q : List ℚ) (user_id : String) (t : ℚ) :
    List SearchResult :=
  st.vector_store.filterMap (considerEntry st q user_id t)

/-- The descending-by-score ordering used by `results.sort(key=..., reverse=True)`. -/
def scoreGe (a b : SearchResult) : Prop := b.similarity_key ≤ a.similarity_key

instance : DecidableRel scoreGe :=
  fun a b => inferInstanceAs (Decidable (b.similarity_key ≤ a.similarity_key))

instance : IsTotal SearchResult scoreGe :=
  ⟨fun a b => le_total b.similarity_key a.similarity_key⟩

instance : IsTrans SearchResult scoreGe :=
  ⟨fun _ _ _ hab hbc => le_trans hbc hab⟩

/-- `results.sort(key=lambda x: x['similarity_score'], reverse=True)`: CPython
sorting is stable, and reverse=True keeps equal elements in scan order; a stable
insertion sort with the non-strict descending comparison is extensionally the same
function. -/
def sortByScoreDesc (l : List SearchResult) : List SearchResult :=
  List.insertionSort scoreGe l

/-- `DatabaseService.semantic_search` (`return results[:limit]`). -/
def semantic_search (st : DBState) (q : List ℚ) (user_id : String) (limit : ℕ)
    (t : ℚ) : List SearchResult :=
  (sortByScoreDesc (searchCandidates st q user_id t)).take limit

/-- `semantic_search` as a state transformer: the method body reads
`self.vector_store` and the memories table but contains no assignment to either,
so the post-state is the pre-state. -/
def semantic_search_run (st : DBState) (q : List ℚ) (user_id : String) (limit : ℕ)
    (t : ℚ) : DBState × List SearchResult :=
  (st, semantic_search st q user_id limit t)

/-! ## Memory lifecycle (database_service.py create_memory / delete_memory,
routers/search.py delete route) -/

/-- `DatabaseService.create_memory`.  `memory_id` stands for the fresh
`uuid.uuid4()` and `now` for the timestamp.  `metaOk` / `vecOk` say whether the
two `put_item` calls succeed; a failed call raises, which the enclosing
`try/except` re-raises, modelled as `.error` carrying the state at the raise
point.  The statement order of the source is the branch order here: metadata
`put_item`, then vector `put_item`, then the in-memory index assignment. -/
def create_memory (st : DBState) (content memory_type : String) (embedding : List ℚ)
    (user_id : String) (memory_id now : String) (metaOk vecOk : Bool) :
    Except DBState (DBState × Option String) :=
  if st.dynamodb_disabled then .ok (st, none)
  else if metaOk then
    let st1 := { st with
      memories_table := dictInsert st.memories_table memory_id
        ⟨memory_id, some user_id, content, memory_type, now⟩ }
    if vecOk then
      let st2 := { st1 with
        embeddings_table := rowsPut st1.embeddings_table
          ⟨memory_id, some user_id, embedding.map some, memory_id, now⟩ }
      let st3 := { st2 with
        vector_store := dictInsert st2.vector_store memory_id
          ⟨embedding, memory_id, some user_id⟩ }
      .ok (st3, some memory_id)
    else .error st1
  else .error st

/-- `DatabaseService.delete_memory`: no tenant parameter and no ownership check;
deletes from the memories table, the embeddings table and the in-memory index by
id, and returns True.  DynamoDB `delete_item` succeeds on a missing key, so no
branch of the happy path can fail; in degraded mode (`self.dynamodb` is `None`)
the first table access raises and the `except` returns False. -/
def delete_memory (st : DBState) (memory_id : String) : DBState × Bool :=
  if st.dynamodb_disabled then (st, false)
  else
    ({ st with
        memories_table := dictRemove st.memories_table memory_id,
        embeddings_table := rowsRemove st.embeddings_table memory_id,
        vector_store := dictRemove st.vector_store memory_id }, true)

/-- HTTP outcome of the delete route. -/
inductive DeleteOutcome where
  | success
  | notFound
deriving Repr, DecidableEq

/-- The `DELETE /api/search/memories/{memory_id}` route (routers/search.py lines
177-195): it takes no authenticated user and passes only the id; a False from the
service is mapped to 404 NotFound, a True to a success body. -/
def delete_route (st : DBState) (memory_id : String) : DBState × DeleteOutcome :=
  let r := delete_memory st memory_id
  (r.1, if r.2 then .success else .notFound)

/-! ## Startup recovery (database_service.py _load_vectors_to_memory, lines 128-158) -/

/-- `[float(x) for x in decimal_embedding]`: fails (raises) as soon as one cell is
not convertible. -/
def convertEmbedding : List (Option ℚ) → Option (List ℚ)
  | [] => some []
  | some q :: rest => (convertEmbedding rest).map (fun l => q :: l)
  | none :: _ => none

/-- The `for item in response.get('Items', [])` loop of `_load_vectors_to_memory`.
There is no per-item exception handling in the source: a raising conversion
propagates to the `except` around the whole scan, so the loop stops there — items
already stored stay in the index, later items are never reached.  No dimension or
tenant validation exists; `item.get('user_id')` may be `None` and is stored as-is. -/
def load_loop : List EmbRow → List (String × VectorData) → List (String × VectorData)
  | [], store => store
  | item :: rest, store =>
    match convertEmbedding item.embedding with
    | none => store
    | some emb => load_loop rest (dictInsert store item.id ⟨emb, item.id, item.user_id⟩)

/-- `DatabaseService._load_vectors_to_memory`: scans the embeddings table into the
in-memory index; any exception is swallowed (the system continues). -/
def load_vectors_to_memory (st : DBState) : DBState :=
  if st.dynamodb_disabled then st
  else { st with vector_store := load_loop st.embeddings_table st.vector_store }

/-! ## Helper lemmas about the retrieval engine -/

/-- Inversion of the per-entry loop body: what a kept result must satisfy. -/
theorem considerEntry_some {st : DBState} {q : List ℚ} {user_id : String} {t : ℚ}
    {p : String × VectorData} {r : SearchResult}
    (h : considerEntry st q user_id t p = some r) :
    p.2.user_id = some user_id ∧ cosKey q p.2.embedding = some r.similarity_key ∧
      thKey t ≤ r.similarity_key ∧ get_memory_by_id st p.1 = some r.memory ∧
      r.memory.user_id = some user_id := by
  unfold considerEntry at h
  split at h
  · exact absurd h (by simp)
  next hu =>
    rw [not_not] at hu
    split at h
    · exact absurd h (by simp)
    next k hk =>
      split at h
      next hth =>
        split at h
        next m hm =>
          split at h
          next hmu =>
            cases h
            exact ⟨hu, hk, hth, hm, hmu⟩
          · exact absurd h (by simp)
        · exact absurd h (by simp)
      · exact absurd h (by simp)

/-- Every returned result arises from some index entry accepted by the loop body. -/
theorem mem_semantic_search {st : DBState} {q : List ℚ} {user_id : String}
    {limit : ℕ} {t : ℚ} {r : SearchResult}
    (h : r ∈ semantic_search st q user_id limit t) :
    ∃ p ∈ st.vector_store, considerEntry st q user_id t p = some r := by
  have h1 : r ∈ sortByScoreDesc (searchCandidates st q user_id t) :=
    List.take_subset _ _ h
  have h2 : r ∈ searchCandidates st q user_id t := by
    simpa [sortByScoreDesc] using h1
  exact List.mem_filterMap.mp h2

/-- A defined similarity requires both operands to have nonzero norm. -/
theorem cosKey_some_norms {q e : List ℚ} {k : ℚ} (h : cosKey q e = some k) :
    dotP q q ≠ 0 ∧ dotP e e ≠ 0 := by
  by_cases hn : dotP q q * dotP e e = 0
  · exfalso; unfold cosKey at h; simp [hn] at h
  · exact mul_ne_zero_iff.mp hn

/-- A zero-norm query makes every loop body skip its entry (NaN fails the
threshold comparison). -/
theorem considerEntry_zero_query {st : DBState} {q : List ℚ} {user_id : String}
    {t : ℚ} (hq : dotP q q = 0) (p : String × VectorData) :
    considerEntry st q user_id t p = none := by
  unfold considerEntry cosKey
  split
  · rfl
  · simp [hq]

/-- Searches agree when the index, the degraded flag and the hydration of every
indexed id agree. -/
theorem semantic_search_congr {st st' : DBState}
    (hvs : st'.vector_store = st.vector_store)
    (hget : ∀ p ∈ st.vector_store, get_memory_by_id st' p.1 = get_memory_by_id st p.1) :
    ∀ q user_id limit t,
      semantic_search st' q user_id limit t = semantic_search st q user_id limit t := by
  intro q user_id limit t
  unfold semantic_search searchCandidates
  rw [hvs]
  congr 1
  congr 1
  refine List.filterMap_congr fun p hp => ?_
  unfold considerEntry
  rw [hget p hp]

/-- Looking up a removed key yields nothing. -/
theorem tblGet_dictRemove {α : Type} (l : List (String × α)) (key : String) :
    tblGet (dictRemove l key) key = none := by
  induction l with
  | nil => rfl
  | cons p rest ih =>
    unfold dictRemove
    split
    · exact ih
    next hne => unfold tblGet; rw [if_neg hne]; exact ih

/-- Looking up a removed id in the embeddings table yields nothing. -/
theorem rowsGet_rowsRemove (l : List EmbRow) (key : String) :
    rowsGet (rowsRemove l key) key = none := by
  induction l with
  | nil => rfl
  | cons x rest ih =>
    unfold rowsRemove
    split
    · exact ih
    next hne => unfold rowsGet; rw [if_neg hne]; exact ih

/-- Updating one key leaves the lookup of any other key unchanged. -/
theorem tblGet_dictInsert_ne {α : Type} (l : List (String × α)) {key k : String}
    (v : α) (hne : k ≠ key) : tblGet (dictInsert l key v) k = tblGet l k := by
  induction l with
  | nil => unfold dictInsert tblGet; rw [if_neg (fun h => hne h.symm)]; rfl
  | cons p rest ih =>
    unfold dictInsert
    split
    next heq =>
      unfold tblGet
      rw [if_neg (fun h : p.1 = k => hne (h ▸ heq)), if_neg (fun h : p.1 = k => hne (h ▸ heq))]
    · unfold tblGet; split
      · rfl
      · exact ih

/-! ## Helper lemmas about the chunker -/

theorem nonWhite_append (a b : List Char) :
    nonWhite (a ++ b) = nonWhite a ++ nonWhite b :=
  List.filter_append a b

theorem nonWhite_NL2 : nonWhite NL2 = [] := rfl

theorem nonWhite_dropWhile (s : List Char) :
    nonWhite (s.dropWhile pyIsSpace) = nonWhite s := by
  induction s with
  | nil => rfl
  | cons c rest ih =>
    by_cases hc : pyIsSpace c
    · rw [List.dropWhile_cons_of_pos hc]
      unfold nonWhite at ih ⊢
      rw [List.filter_cons, if_neg (by simp [hc])]
      exact ih
    · rw [List.dropWhile_cons_of_neg hc]

theorem nonWhite_reverse (s : List Char) :
    nonWhite s.reverse = (nonWhite s).reverse :=
  List.filter_reverse _ s

/-- Stripping changes only whitespace. -/
theorem nonWhite_pyStrip (s : List Char) : nonWhite (pyStrip s) = nonWhite s := by
  unfold pyStrip
  rw [nonWhite_reverse, nonWhite_dropWhile, nonWhite_reverse, List.reverse_reverse,
    nonWhite_dropWhile]

theorem nonWhite_flatten (L : List (List Char)) :
    nonWhite L.flatten = (L.map nonWhite).flatten := by
  induction L with
  | nil => rfl
  | cons p ps ih => simp [List.flatten_cons, nonWhite_append, ih]

/-- Rejoin the pieces of a `'\n\n'` split with the separator. -/
def joinPara : List (List Char) → List Char
  | [] => []
  | [p] => p
  | p :: ps => p ++ NL2 ++ joinPara ps

theorem splitPara_ne_nil (l : List Char) : splitPara l ≠ [] := by
  induction l using splitPara.induct with
  | case1 => simp [splitPara]
  | case2 c => simp [splitPara]
  | case3 c d rest h ih => simp [splitPara, h]
  | case4 c d rest h ih =>
    unfold splitPara
    rw [if_neg h]
    cases hs : splitPara (d :: rest) with
    | nil => exact absurd hs ih
    | cons p ps => simp [consHead]

theorem joinPara_consHead (c : Char) (L : List (List Char)) (hL : L ≠ []) :
    joinPara (consHead c L) = c :: joinPara L := by
  match L with
  | [] => exact absurd rfl hL
  | [p] => rfl
  | p :: q :: ps => rfl

/-- The split really is a decomposition: rejoining with `'\n\n'` restores the text. -/
theorem joinPara_splitPara (l : List Char) : joinPara (splitPara l) = l := by
  induction l using splitPara.induct with
  | case1 => rfl
  | case2 c => rfl
  | case3 c d rest h ih =>
    obtain ⟨hc, hd⟩ := h
    subst hc; subst hd
    unfold splitPara
    rw [if_pos ⟨rfl, rfl⟩]
    cases hs : splitPara rest with
    | nil => exact absurd hs (splitPara_ne_nil rest)
    | cons p ps =>
      rw [hs] at ih
      show NL2 ++ joinPara (p :: ps) = '\n' :: '\n' :: rest
      simp [NL2, ih]
  | case4 c d rest h ih =>
    unfold splitPara
    rw [if_neg h, joinPara_consHead c _ (splitPara_ne_nil (d :: rest)), ih]

theorem nonWhite_flattenPara (L : List (List Char)) :
    nonWhite (joinPara L) = (L.map nonWhite).flatten := by
  induction L with
  | nil => rfl
  | cons p ps ih =>
    cases ps with
    | nil => show nonWhite p = nonWhite p ++ []; rw [List.append_nil]
    | cons q qs =>
      show nonWhite (p ++ NL2 ++ joinPara (q :: qs)) = _
      rw [nonWhite_append, nonWhite_append, nonWhite_NL2, List.append_nil,
        ih]
      rfl

/-- Unfolded form of one paragraph-loop iteration. -/
theorem chunkStep_eq (max_tokens : ℕ) (chunks : List (List Char)) (current p : List Char) :
    chunkStep max_tokens (chunks, current) p =
      if max_tokens < estimate_tokens p then
        ((if current.isEmpty then chunks else chunks ++ [pyStrip current]) ++
          split_long_paragraph p max_tokens, [])
      else if estimate_tokens (current ++ p) ≤ max_tokens then
        (chunks, current ++ p ++ NL2)
      else if current.isEmpty then (chunks, p ++ NL2)
      else (chunks ++ [pyStrip current], p ++ NL2) := rfl

/-- Invariant of the paragraph loop: when no paragraph exceeds the budget, the
non-whitespace content of the flushed chunks plus the pending chunk equals the
non-whitespace content already accumulated plus that of the pending paragraphs. -/
theorem chunkFold_nonWhite (max_tokens : ℕ) (ps : List (List Char)) :
    ∀ chunks current,
      (∀ p ∈ ps, estimate_tokens p ≤ max_tokens) →
      ((ps.foldl (chunkStep max_tokens) (chunks, current)).1.map nonWhite).flatten
        ++ nonWhite (ps.foldl (chunkStep max_tokens) (chunks, current)).2
      = (chunks.map nonWhite).flatten ++ nonWhite current ++ (ps.map nonWhite).flatten := by
  induction ps with
  | nil => intro chunks current _; simp
  | cons p ps ih =>
    intro chunks current h
    have hp : estimate_tokens p ≤ max_tokens := h p (by simp)
    have hrest : ∀ x ∈ ps, estimate_tokens x ≤ max_tokens :=
      fun x hx => h x (List.mem_cons_of_mem p hx)
    rw [List.foldl_cons, chunkStep_eq, if_neg (Nat.not_lt.mpr hp)]
    by_cases hfit : estimate_tokens (current ++ p) ≤ max_tokens
    · rw [if_pos hfit, ih _ _ hrest]
      simp [nonWhite_append, nonWhite_NL2, List.append_assoc]
    · rw [if_neg hfit]
      by_cases hemp : current.isEmpty = true
      · rw [if_pos hemp, ih _ _ hrest]
        rw [List.isEmpty_iff.mp hemp]
        have h0 : nonWhite [] = [] := rfl
        simp [nonWhite_append, nonWhite_NL2, List.append_assoc, h0]
      · rw [if_neg hemp, ih _ _ hrest]
        simp [nonWhite_append, nonWhite_NL2, List.append_assoc, nonWhite_pyStrip]

/-! ## Concrete states used by witnesses and counterexamples -/

def memA : MemoryItem := ⟨"m1", some "u", "c1", "text", "t1"⟩

def memB : MemoryItem := ⟨"m2", some "u", "c2", "text", "t2"⟩

def oneEntrySt : DBState :=
  ⟨[("m1", ⟨[1], "m1", some "u"⟩)], [("m1", memA)], [], false⟩

def tieStA : DBState :=
  ⟨[("m1", ⟨[1], "m1", some "u"⟩), ("m2", ⟨[2], "m2", some "u"⟩)],
   [("m1", memA), ("m2", memB)], [], false⟩

def tieStB : DBState :=
  ⟨[("m2", ⟨[2], "m2", some "u"⟩), ("m1", ⟨[1], "m1", some "u"⟩)],
   [("m1", memA), ("m2", memB)], [], false⟩

def zeroNormSt : DBState :=
  ⟨[("m1", ⟨[0], "m1", some "u"⟩)], [("m1", memA)], [], false⟩

def ownedSt : DBState :=
  ⟨[("m1", ⟨[1], "m1", some "userA"⟩)],
   [("m1", ⟨"m1", some "userA", "c1", "text", "t1"⟩)],
   [⟨"m1", some "userA", [some 1], "m1", "t1"⟩], false⟩

def stAfterMetaPut : DBState :=
  { ownedSt with
    memories_table := dictInsert ownedSt.memories_table "m9"
      ⟨"m9", some "u", "c9", "text", "t9"⟩ }

def badRow : EmbRow := ⟨"b", some "u", [none], "b", "tb"⟩

def goodRow : EmbRow := ⟨"g", some "u", [some 1], "g", "tg"⟩

def badLoadSt : DBState := ⟨[], [], [badRow, goodRow], false⟩

/-! ## Claims -/

/-- C1: for every query embedding, tenant and limit, every result returned by
semantic_search is a record whose user_id equals the querying tenant: the scan
skips entries of other tenants and the hydration re-checks ownership, so a record
created under tenant A is never contained in the result list of a search issued
under any other tenant B, whatever the query vector. -/
theorem semantic_search_tenant_isolation :
    ∀ (st : DBState) (q : List ℚ) (user_id : String) (limit : ℕ) (t : ℚ)
      (r : SearchResult), r ∈ semantic_search st q user_id limit t →
      r.memory.user_id = some user_id ∧
      ∀ other : String, other ≠ user_id → r.memory.user_id ≠ some other := by
  intro st q user_id limit t r hr
  obtain ⟨p, _, hsome⟩ := mem_semantic_search hr
  obtain ⟨_, _, _, _, h5⟩ := considerEntry_some hsome
  exact ⟨h5, fun other hne hcon => hne (Option.some.inj (h5.symm.trans hcon)).symm⟩

/-- Witness: C1 applied at a one-record state whose search returns that record. -/
theorem semantic_search_tenant_isolation_witness :
    (⟨memA, 1⟩ : SearchResult).memory.user_id = some "u" :=
  (semantic_search_tenant_isolation oneEntrySt [1] "u" 10 1 ⟨memA, 1⟩ (by
    norm_num [semantic_search, searchCandidates, considerEntry, get_memory_by_id,
      tblGet, cosKey, dotP, thKey, oneEntrySt, memA, sortByScoreDesc,
      List.filterMap_cons, List.insertionSort, List.orderedInsert])).1

/-- C2 counterexample: after a successful delete of "m1", a second delete of the
same id again returns success — DynamoDB delete_item does not fail on a missing
key and delete_memory returns True unconditionally — so the route does not map
the second call to NotFound. -/
theorem delete_second_call_success_counterexample :
    (delete_route ownedSt "m1").2 = DeleteOutcome.success ∧
    (delete_route (delete_route ownedSt "m1").1 "m1").2 = DeleteOutcome.success ∧
    (delete_route (delete_route ownedSt "m1").1 "m1").2 ≠ DeleteOutcome.notFound := by
  decide

/-- C2 (amended): whenever persistence is enabled, every delete of any id,
present or already deleted, returns success; in particular the second delete of
the same id returns a second success, never NotFound (the route answers NotFound
only when the service reports failure, which a missing id does not cause). -/
theorem delete_route_always_success :
    ∀ (st : DBState) (memory_id : String), st.dynamodb_disabled = false →
      (delete_route st memory_id).2 = DeleteOutcome.success ∧
      (delete_route (delete_route st memory_id).1 memory_id).2 =
        DeleteOutcome.success := by
  intro st memory_id h
  constructor
  · simp [delete_route, delete_memory, h]
  · simp [delete_route, delete_memory, h]

/-- Witness for the amended C2 at a concrete state. -/
theorem delete_route_always_success_witness :
    (delete_route ownedSt "m1").2 = DeleteOutcome.success ∧
    (delete_route (delete_route ownedSt "m1").1 "m1").2 = DeleteOutcome.success :=
  delete_route_always_success ownedSt "m1" rfl

/-- C3 counterexample: the record "m1" belongs to tenant "userA", yet the delete
route — which authenticates nobody and passes no tenant to the service — removes
its metadata record, its durable vector and its index entry; so a delete issued
by any requester, owner or not, removes everything. -/
theorem delete_no_ownership_check_counterexample :
    tblGet ownedSt.memories_table "m1" =
      some ⟨"m1", some "userA", "c1", "text", "t1"⟩ ∧
    (delete_route ownedSt "m1").2 = DeleteOutcome.success ∧
    tblGet (delete_route ownedSt "m1").1.memories_table "m1" = none ∧
    tblGet (delete_route ownedSt "m1").1.vector_store "m1" = none ∧
    rowsGet (delete_route ownedSt "m1").1.embeddings_table "m1" = none := by
  decide

/-- C3 (amended): the delete path verifies no tenant ownership: for every enabled
state and id, delete_memory removes the id from the metadata table, the durable
vector table and the in-memory index unconditionally, whoever requests it. -/
theorem delete_removes_unconditionally :
    ∀ (st : DBState) (memory_id : String), st.dynamodb_disabled = false →
      tblGet (delete_memory st memory_id).1.memories_table memory_id = none ∧
      tblGet (delete_memory st memory_id).1.vector_store memory_id = none ∧
      rowsGet (delete_memory st memory_id).1.embeddings_table memory_id = none := by
  intro st memory_id h
  unfold delete_memory
  rw [if_neg (by simp [h])]
  exact ⟨tblGet_dictRemove _ _, tblGet_dictRemove _ _, rowsGet_rowsRemove _ _⟩

/-- Witness for the amended C3 at a concrete state. -/
theorem delete_removes_unconditionally_witness :
    tblGet (delete_memory ownedSt "m1").1.memories_table "m1" = none ∧
    tblGet (delete_memory ownedSt "m1").1.vector_store "m1" = none ∧
    rowsGet (delete_memory ownedSt "m1").1.embeddings_table "m1" = none :=
  delete_removes_unconditionally ownedSt "m1" rfl

/-- C4 counterexample: a stored zero-norm embedding is not rejected with an
InvalidEmbedding error: the unguarded division gives NaN (modelled `none`), the
`NaN >= threshold` comparison is false, and semantic_search returns an ordinary
empty list — although the entry belongs to the caller, its metadata exists, and
any real similarity value would have passed the threshold -1. -/
theorem zero_norm_not_rejected_counterexample :
    cosKey [(1 : ℚ)] [0] = none ∧
    tblGet zeroNormSt.vector_store "m1" = some ⟨[0], "m1", some "u"⟩ ∧
    get_memory_by_id zeroNormSt "m1" = some memA ∧
    semantic_search zeroNormSt [1] "u" 10 (-1) = [] := by
  refine ⟨by norm_num [cosKey, dotP], by decide, by decide, ?_⟩
  norm_num [semantic_search, searchCandidates, considerEntry, get_memory_by_id,
    tblGet, cosKey, dotP, thKey, zeroNormSt, memA, sortByScoreDesc,
    List.filterMap_cons, List.insertionSort, List.orderedInsert]

/-- C4 (amended): zero-norm embeddings are not rejected as errors; their NaN
similarity simply fails every inclusive comparison, so they are silently
excluded: a zero-norm query yields an empty result list, and every returned
result stems from an index entry with nonzero norm (and nonzero query norm) and
a well-defined similarity, so no NaN value ever appears in the output. -/
theorem zero_norm_silently_excluded :
    ∀ (st : DBState) (q : List ℚ) (user_id : String) (limit : ℕ) (t : ℚ),
      (dotP q q = 0 → semantic_search st q user_id limit t = []) ∧
      ∀ r ∈ semantic_search st q user_id limit t,
        ∃ p ∈ st.vector_store,
          cosKey q p.2.embedding = some r.similarity_key ∧
          dotP q q ≠ 0 ∧ dotP p.2.embedding p.2.embedding ≠ 0 := by
  intro st q user_id limit t
  constructor
  · intro hq
    unfold semantic_search
    have hcand : searchCandidates st q user_id t = [] :=
      List.filterMap_eq_nil_iff.mpr fun p _ => considerEntry_zero_query hq p
    rw [hcand]
    simp [sortByScoreDesc]
  · intro r hr
    obtain ⟨p, hp, hsome⟩ := mem_semantic_search hr
    obtain ⟨_, h2, _, _, _⟩ := considerEntry_some hsome
    obtain ⟨hq, he⟩ := cosKey_some_norms h2
    exact ⟨p, hp, h2, hq, he⟩

/-- Witness for the amended C4: a zero query at a concrete state returns nothing. -/
theorem zero_norm_silently_excluded_witness :
    semantic_search zeroNormSt [0] "u" 10 (-1) = [] :=
  (zero_norm_silently_excluded zeroNormSt [0] "u" 10 (-1)).1 (by norm_num [dotP])

/-- C5: create_memory performs, in order: metadata put, vector put, index
insert; whenever a durable write fails the call raises, and in the raised state
the in-memory index and the durable vector table are untouched — the index
insert is never reached — so (for a fresh uuid) semantic_search results are
exactly those of the pre-call state: no partially created memory is queryable. -/
theorem create_failure_not_searchable :
    ∀ (st : DBState) (content memory_type : String) (embedding : List ℚ)
      (user_id memory_id now : String) (metaOk vecOk : Bool),
      st.dynamodb_disabled = false →
      (metaOk = false ∨ vecOk = false) →
      (∃ stErr, create_memory st content memory_type embedding user_id memory_id now
          metaOk vecOk = Except.error stErr) ∧
      ∀ stErr, create_memory st content memory_type embedding user_id memory_id now
          metaOk vecOk = Except.error stErr →
        stErr.vector_store = st.vector_store ∧
        stErr.embeddings_table = st.embeddings_table ∧
        (memory_id ∉ st.vector_store.map Prod.fst →
          ∀ (q : List ℚ) (uid : String) (limit : ℕ) (t : ℚ),
            semantic_search stErr q uid limit t = semantic_search st q uid limit t) := by
  intro st content memory_type embedding user_id memory_id now metaOk vecOk hdis hfail
  unfold create_memory
  rw [if_neg (by simp [hdis])]
  cases metaOk with
  | false =>
    rw [if_neg (by simp)]
    refine ⟨⟨st, rfl⟩, ?_⟩
    intro stErr hst
    injection hst with h
    subst h
    exact ⟨rfl, rfl, fun _ _ _ _ _ => rfl⟩
  | true =>
    cases vecOk with
    | true =>
      rcases hfail with h | h
      · exact absurd h (by simp)
      · exact absurd h (by simp)
    | false =>
      rw [if_pos rfl, if_neg (by simp)]
      refine ⟨⟨_, rfl⟩, ?_⟩
      intro stErr hst
      injection hst with h
      subst h
      refine ⟨rfl, rfl, ?_⟩
      intro hfresh q uid limit t
      apply semantic_search_congr
      · rfl
      intro p hp
      have hne : p.1 ≠ memory_id :=
        fun h => hfresh (h ▸ List.mem_map_of_mem Prod.fst hp)
      unfold get_memory_by_id
      simp only [tblGet_dictInsert_ne _ _ hne]

/-- Witness for C5: a failing vector write raises with the metadata already
written, and search results at the raised state equal those before the call. -/
theorem create_failure_not_searchable_witness :
    semantic_search stAfterMetaPut [1] "u" 10 0 = semantic_search ownedSt [1] "u" 10 0 :=
  (((create_failure_not_searchable ownedSt "c9" "text" [2] "u" "m9" "t9" true false rfl
      (Or.inr rfl)).2 stAfterMetaPut rfl).2.2 (by decide) [1] "u" 10 0)

/-- C6 counterexample: two states whose in-memory indexes hold the same entries
in different iteration orders (and are identical elsewhere) return the two
equal-similarity candidates in different orders: the tie between equal scores is
not broken by any rule independent of the scan order of the index. -/
theorem tie_order_depends_on_scan_order :
    tieStA.vector_store.Perm tieStB.vector_store ∧
    tieStA.memories_table = tieStB.memories_table ∧
    tieStA.embeddings_table = tieStB.embeddings_table ∧
    tieStA.dynamodb_disabled = tieStB.dynamodb_disabled ∧
    semantic_search tieStA [1] "u" 10 0 ≠ semantic_search tieStB [1] "u" 10 0 := by
  refine ⟨List.Perm.swap _ _ _, rfl, rfl, rfl, ?_⟩
  have hA : semantic_search tieStA [1] "u" 10 0 = [⟨memA, 1⟩, ⟨memB, 1⟩] := by
    norm_num [semantic_search, searchCandidates, considerEntry, get_memory_by_id,
      tblGet, cosKey, dotP, thKey, tieStA, memA, memB, sortByScoreDesc,
      List.filterMap_cons, List.insertionSort, List.orderedInsert, scoreGe]
  have hB : semantic_search tieStB [1] "u" 10 0 = [⟨memB, 1⟩, ⟨memA, 1⟩] := by
    norm_num [semantic_search, searchCandidates, considerEntry, get_memory_by_id,
      tblGet, cosKey, dotP, thKey, tieStB, memA, memB, sortByScoreDesc,
      List.filterMap_cons, List.insertionSort, List.orderedInsert, scoreGe]
  rw [hA, hB]
  simp [memA, memB]

/-- C6 (amended): the result list is sorted by similarity in descending order and
contains at most `limit` elements; ties, however, are resolved by CPython's
stable sort in index scan order, not by any deterministic data-derived rule. -/
theorem semantic_search_sorted_limited :
    ∀ (st : DBState) (q : List ℚ) (user_id : String) (limit : ℕ) (t : ℚ),
      List.Sorted scoreGe (semantic_search st q user_id limit t) ∧
      (semantic_search st q user_id limit t).length ≤ limit := by
  intro st q user_id limit t
  constructor
  · exact List.Pairwise.sublist (List.take_sublist _ _)
      (List.sorted_insertionSort scoreGe _)
  · exact List.length_take_le _ _

/-- C7: the threshold comparison is inclusive: an entry of the caller whose
similarity equals the threshold exactly is accepted into the candidate list
(subject only to the limit cut), and every returned result has similarity at
least the threshold, so strictly smaller similarities are excluded. -/
theorem threshold_inclusive :
    (∀ (st : DBState) (q : List ℚ) (user_id : String) (t : ℚ) (memory_id : String)
       (vd : VectorData) (m : MemoryItem),
       (memory_id, vd) ∈ st.vector_store →
       vd.user_id = some user_id →
       cosKey q vd.embedding = some (thKey t) →
       get_memory_by_id st memory_id = some m →
       m.user_id = some user_id →
       (⟨m, thKey t⟩ : SearchResult) ∈ searchCandidates st q user_id t) ∧
    ∀ (st : DBState) (q : List ℚ) (user_id : String) (limit : ℕ) (t : ℚ)
      (r : SearchResult), r ∈ semantic_search st q user_id limit t →
      thKey t ≤ r.similarity_key := by
  constructor
  · intro st q user_id t memory_id vd m hmem huser hcos hget hmu
    refine List.mem_filterMap.mpr ⟨(memory_id, vd), hmem, ?_⟩
    unfold considerEntry
    simp [huser, hcos, hget, hmu]
  · intro st q user_id limit t r hr
    obtain ⟨p, _, hsome⟩ := mem_semantic_search hr
    exact (considerEntry_some hsome).2.2.1

/-- Witness for C7: at a one-record state with similarity exactly equal to the
threshold the record qualifies, and the returned score meets the bound. -/
theorem threshold_inclusive_witness :
    (⟨memA, thKey 1⟩ : SearchResult) ∈ searchCandidates oneEntrySt [1] "u" 1 ∧
    thKey 1 ≤ (⟨memA, 1⟩ : SearchResult).similarity_key :=
  ⟨threshold_inclusive.1 oneEntrySt [1] "u" 1 "m1" ⟨[1], "m1", some "u"⟩ memA
      (by decide) rfl (by norm_num [cosKey, dotP, thKey]) (by decide) rfl,
   threshold_inclusive.2 oneEntrySt [1] "u" 10 1 ⟨memA, 1⟩ (by
    norm_num [semantic_search, searchCandidates, considerEntry, get_memory_by_id,
      tblGet, cosKey, dotP, thKey, oneEntrySt, memA, sortByScoreDesc,
      List.filterMap_cons, List.insertionSort, List.orderedInsert])⟩

/-- Unfolding of the chunker in the over-budget case. -/
theorem split_text_into_chunks_of_over {text : List Char} {max_tokens : ℕ}
    (h : ¬ estimate_tokens text ≤ max_tokens) :
    split_text_into_chunks text max_tokens =
      (if ((splitPara text).foldl (chunkStep max_tokens) ([], [])).2.isEmpty
        then ((splitPara text).foldl (chunkStep max_tokens) ([], [])).1
        else ((splitPara text).foldl (chunkStep max_tokens) ([], [])).1
          ++ [pyStrip ((splitPara text).foldl (chunkStep max_tokens) ([], [])).2]) := by
  unfold split_text_into_chunks
  rw [if_neg h]

/-- C8 (amended): when the estimated token count of the input is within the
budget, exactly one chunk — the input itself, unchanged — is returned; and as
long as no single paragraph exceeds the budget (so the `'。'`-appending sentence
splitter is never invoked), the ordered concatenation of the returned chunks
reproduces the input's non-whitespace character sequence exactly: nothing
non-whitespace is added, dropped, or reordered. -/
theorem chunker_guarantees :
    ∀ (text : List Char) (max_tokens : ℕ),
      (estimate_tokens text ≤ max_tokens →
        split_text_into_chunks text max_tokens = [text]) ∧
      ((∀ p ∈ splitPara text, estimate_tokens p ≤ max_tokens) →
        nonWhite (split_text_into_chunks text max_tokens).flatten = nonWhite text) := by
  intro text max_tokens
  constructor
  · intro h
    unfold split_text_into_chunks
    rw [if_pos h]
  · intro hp
    by_cases hle : estimate_tokens text ≤ max_tokens
    · unfold split_text_into_chunks
      rw [if_pos hle]
      simp
    · have hinv := chunkFold_nonWhite max_tokens (splitPara text) [] [] hp
      have htext : ((splitPara text).map nonWhite).flatten = nonWhite text := by
        rw [← nonWhite_flattenPara, joinPara_splitPara]
      have hnil : nonWhite [] = [] := rfl
      simp only [List.map_nil, List.flatten_nil, hnil, List.nil_append, htext] at hinv
      rw [split_text_into_chunks_of_over hle]
      set F := (splitPara text).foldl (chunkStep max_tokens) ([], []) with hF
      by_cases hcur : F.2.isEmpty = true
      · rw [if_pos hcur]
        have h2 : nonWhite F.2 = [] := by
          rw [List.isEmpty_iff.mp hcur]
          rfl
        rw [nonWhite_flatten, ← hinv, h2, List.append_nil]
      · rw [if_neg hcur]
        have hsplit : nonWhite ((F.1 ++ [pyStrip F.2]).flatten)
            = (F.1.map nonWhite).flatten ++ nonWhite F.2 := by
          rw [nonWhite_flatten, List.map_append, List.flatten_append]
          simp [nonWhite_pyStrip]
        rw [hsplit, hinv]

/-- Witness for the amended C8 at concrete inputs. -/
theorem chunker_guarantees_witness :
    split_text_into_chunks "hi".toList 100 = ["hi".toList] ∧
    nonWhite (split_text_into_chunks "a b".toList 100).flatten = nonWhite "a b".toList :=
  ⟨(chunker_guarantees "hi".toList 100).1 (by decide),
   (chunker_guarantees "a b".toList 100).2 (by decide)⟩

/-- C8 counterexample: for the text "x y" with budget 1 the estimate is 3 > 1,
yet exactly one chunk is returned, refuting the claimed equivalence; moreover
that chunk is "x y。" — the sentence splitter appended a `'。'` — so the
concatenation of the chunks differs from the input even after discarding every
whitespace character. -/
theorem chunker_counterexample :
    split_text_into_chunks "x y".toList 1 = ["x y。".toList] ∧
    (split_text_into_chunks "x y".toList 1).length = 1 ∧
    1 < estimate_tokens "x y".toList ∧
    nonWhite (split_text_into_chunks "x y".toList 1).flatten ≠ nonWhite "x y".toList := by
  decide

/-- C9 (amended): startup recovery has no per-entry error handling: the scan
loads rows in order until the first row whose stored embedding fails numeric
conversion; that row's exception aborts the remainder of the loop (it is caught
outside the loop, so startup continues), leaving every row before the bad one
loaded and every row after it — well-formed or not — unloaded. -/
theorem load_aborts_at_first_bad_row :
    ∀ (pre : List EmbRow) (bad : EmbRow) (suf : List EmbRow)
      (store : List (String × VectorData)),
      (∀ r ∈ pre, (convertEmbedding r.embedding).isSome = true) →
      convertEmbedding bad.embedding = none →
      load_loop (pre ++ bad :: suf) store = load_loop pre store := by
  intro pre bad suf
  induction pre with
  | nil =>
    intro store _ hbad
    show load_loop (bad :: suf) store = store
    unfold load_loop
    rw [hbad]
  | cons r rest ih =>
    intro store hpre hbad
    obtain ⟨emb, hemb⟩ := Option.isSome_iff_exists.mp (hpre r (List.mem_cons_self r rest))
    show load_loop (r :: (rest ++ bad :: suf)) store = load_loop (r :: rest) store
    unfold load_loop
    rw [hemb]
    exact ih _ (fun x hx => hpre x (List.mem_cons_of_mem r hx)) hbad

/-- Witness for the amended C9: one bad row at the head stops the whole load. -/
theorem load_aborts_at_first_bad_row_witness :
    load_loop [badRow, goodRow] [] = load_loop [] [] :=
  load_aborts_at_first_bad_row [] badRow [goodRow] [] (by simp) rfl

/-- C9 counterexample: the durable store holds a malformed row (an embedding cell
on which float() raises) followed by a well-formed row; recovery loads nothing,
so the well-formed entry after the bad one is not loaded into the index — one
bad entry does abort the rest of the rebuild. -/
theorem bad_row_aborts_rebuild_counterexample :
    convertEmbedding badRow.embedding = none ∧
    convertEmbedding goodRow.embedding = some [1] ∧
    (load_vectors_to_memory badLoadSt).vector_store = [] := by
  decide

/-- C10: semantic_search is a pure read of the shared state: its body contains
no assignment to the in-memory vector store (nor to any other field), so the
post-state of a search equals the pre-state — no entry is added, removed or
mutated — and any later operation observes exactly the state it would have
observed had the search not run. -/
theorem semantic_search_pure_read :
    ∀ (st : DBState) (q : List ℚ) (user_id : String) (limit : ℕ) (t : ℚ),
      (semantic_search_run st q user_id limit t).1.vector_store = st.vector_store ∧
      (semantic_search_run st q user_id limit t).1 = st ∧
      ∀ (q2 : List ℚ) (uid2 : String) (limit2 : ℕ) (t2 : ℚ),
        semantic_search (semantic_search_run st q user_id limit t).1 q2 uid2 limit2 t2
          = semantic_search st q2 uid2 limit2 t2 :=
  fun _ _ _ _ _ => ⟨rfl, rfl, fun _ _ _ _ => rfl⟩
